import Mathlib

/-!
Verification development for TheLighted: four cooperating Soroban contracts
(LoyaltyToken, RestaurantRegistry, PaymentEscrow, OrderLifecycle) plus the
frontend cart store and the backend admin-user password hook.

The Rust contract sources are not part of this tree (only the deployment
script and its documentation are), so the contract operations are modelled
from the specification text.  Machine integers (u64, u128) are modelled as
Nat with explicit bound checks where the spec requires overflow checks.
Fallible entry points return Except: a Soroban call either commits in full
or fails and is rolled back, which the host-level wrapper runCall makes
explicit (on error the pre-call state is kept unchanged).
-/

abbrev Address := Nat

/-- Error taxonomy of the contracts, as listed in the spec. -/
inductive Err where
  | AlreadyInitialized
  | Unauthorized
  | NotFound
  | InvalidAmount
  | InvalidFee
  | DuplicateOrder
  | InvalidState
  | InvalidTransition
  | OrderClosed
  | InsufficientBalance
  | TransferFailed
  | Overflow
deriving DecidableEq, Repr

/-- Host semantics of a contract invocation: the new state on success,
the unchanged pre-call state on failure (full rollback). -/
def runCall {σ : Type} (f : σ → Except Err σ) (s : σ) : σ :=
  match f s with
  | .ok t => t
  | .error _ => s

def U128_MAX : Nat := 2 ^ 128 - 1

/-- Balance lookup in an association-list ledger; unknown address reads 0. -/
def getBal : List (Address × Nat) → Address → Nat
  | [], _ => 0
  | (b, v) :: rest, a => if b = a then v else getBal rest a

/-- Balance write in an association-list ledger (point write; inserts if absent). -/
def setBal : List (Address × Nat) → Address → Nat → List (Address × Nat)
  | [], a, v => [(a, v)]
  | (b, w) :: rest, a, v => if b = a then (a, v) :: rest else (b, w) :: setBal rest a v

theorem getBal_setBal_same (l : List (Address × Nat)) (a : Address) (v : Nat) :
    getBal (setBal l a v) a = v := by
  induction l with
  | nil => simp [getBal, setBal]
  | cons p rest ih =>
    obtain ⟨b, w⟩ := p
    by_cases hb : b = a
    · simp [getBal, setBal, hb]
    · simp [getBal, setBal, hb, ih]

theorem getBal_setBal_ne (l : List (Address × Nat)) (a c : Address) (v : Nat)
    (h : a ≠ c) : getBal (setBal l a v) c = getBal l c := by
  induction l with
  | nil => simp [getBal, setBal, h]
  | cons p rest ih =>
    obtain ⟨b, w⟩ := p
    by_cases hb : b = a
    · subst hb
      simp [getBal, setBal, h]
    · simp only [setBal, if_neg hb, getBal]
      by_cases hc : b = c
      · simp [hc]
      · simp [hc, ih]

/-- Modelled from the spec: the persistent state of the LoyaltyToken contract
(the Rust source of the contract is not in the tree).  Balances are the
implicit Address to u128 map; decimals, name and symbol are constants fixed
at initialization and irrelevant to the verified behaviour. -/
structure TokenState where
  admin : Address
  minter : Address
  total_supply : Nat
  balances : List (Address × Nat)
deriving DecidableEq, Repr

/-- Modelled from the spec: LoyaltyToken.mint(to, amount).  Caller must equal
the stored minter (Unauthorized otherwise), amount must be nonzero
(InvalidAmount), and both total_supply and the recipient balance are
checked against the u128 range (Overflow on wrap); on success both grow by
exactly amount. -/
def TokenState.mint (s : TokenState) (caller dst : Address) (amount : Nat) :
    Except Err TokenState :=
  if caller = s.minter then
    if amount = 0 then .error .InvalidAmount
    else if s.total_supply + amount > U128_MAX then .error .Overflow
    else if getBal s.balances dst + amount > U128_MAX then .error .Overflow
    else .ok { s with
      total_supply := s.total_supply + amount,
      balances := setBal s.balances dst (getBal s.balances dst + amount) }
  else .error .Unauthorized

/-- C7: mint is minter-gated (Unauthorized for any other caller regardless of
amount), rejects amount = 0 with InvalidAmount, rejects u128 wrap of either
total_supply or the recipient balance with Overflow, and otherwise increases
both total_supply and balance of the recipient by exactly amount. -/
theorem C7_mint_access_control (s : TokenState) (caller dst : Address) (amount : Nat) :
    (caller ≠ s.minter → s.mint caller dst amount = .error .Unauthorized) ∧
    (caller = s.minter → amount = 0 → s.mint caller dst amount = .error .InvalidAmount) ∧
    (caller = s.minter → amount ≠ 0 →
      (s.total_supply + amount > U128_MAX ∨ getBal s.balances dst + amount > U128_MAX) →
      s.mint caller dst amount = .error .Overflow) ∧
    (caller = s.minter → amount ≠ 0 →
      s.total_supply + amount ≤ U128_MAX → getBal s.balances dst + amount ≤ U128_MAX →
      ∃ s', s.mint caller dst amount = .ok s' ∧
        s'.total_supply = s.total_supply + amount ∧
        getBal s'.balances dst = getBal s.balances dst + amount) := by
  refine ⟨fun hne => ?_, fun hc h0 => ?_, fun hc h0 hov => ?_, fun hc h0 hs hb => ?_⟩
  · simp [TokenState.mint, hne]
  · simp [TokenState.mint, hc, h0]
  · rcases hov with hov | hov
    · simp [TokenState.mint, hc, h0, hov]
    · by_cases hsup : s.total_supply + amount > U128_MAX
      · simp [TokenState.mint, hc, h0, hsup]
      · simp [TokenState.mint, hc, h0, hsup, hov]
  · have hmint : s.mint caller dst amount = .ok { s with
        total_supply := s.total_supply + amount,
        balances := setBal s.balances dst (getBal s.balances dst + amount) } := by
      simp [TokenState.mint, hc, h0, Nat.not_lt.mpr hs, Nat.not_lt.mpr hb]
    exact ⟨_, hmint, rfl, by simp [getBal_setBal_same]⟩

/-- Witness for C7 at concrete inputs: a non-minter caller is refused, and a
minter mint of 5 units credits the recipient. -/
theorem C7_mint_access_control_witness :
    (TokenState.mint ⟨1, 2, 0, []⟩ 3 7 5 = .error .Unauthorized) ∧
    (∃ s', TokenState.mint ⟨1, 2, 0, []⟩ 2 7 5 = .ok s' ∧
      s'.total_supply = 0 + 5 ∧ getBal s'.balances 7 = getBal [] 7 + 5) := by
  exact ⟨(C7_mint_access_control ⟨1, 2, 0, []⟩ 3 7 5).1 (by decide),
    (C7_mint_access_control ⟨1, 2, 0, []⟩ 2 7 5).2.2.2 rfl (by decide)
      (by decide) (by decide)⟩

/-- Modelled from the spec: a RestaurantRecord as stored by the registry
(id auto-incremented from 1, opaque metadata bytes, active flag). -/
structure RestaurantRecord where
  id : Nat
  owner : Address
  metadata : List Nat
  active : Bool
deriving DecidableEq, Repr

/-- Modelled from the spec: persistent state of the RestaurantRegistry
contract (the Rust source is not in the tree). -/
structure RegistryState where
  admin : Address
  next_id : Nat
  records : List RestaurantRecord
deriving DecidableEq, Repr

/-- Modelled from the spec: RestaurantRegistry.initialize(admin) sets
next_id = 1 with no records. -/
def RegistryState.init (admin : Address) : RegistryState :=
  ⟨admin, 1, []⟩

/-- Modelled from the spec: RestaurantRegistry.register(owner, metadata) is
admin-gated (Unauthorized otherwise); assigns id = next_id, increments
next_id, stores the record with active = true and returns the id. -/
def RegistryState.register (s : RegistryState) (caller owner : Address)
    (metadata : List Nat) : Except Err (Nat × RegistryState) :=
  if caller = s.admin then
    .ok (s.next_id, { s with
      next_id := s.next_id + 1,
      records := s.records ++ [⟨s.next_id, owner, metadata, true⟩] })
  else .error .Unauthorized

/-- C8: initialize sets next_id = 1; every successful register assigns
id = next_id, increments next_id by one, appends the record with
active = true and returns the id; and three registrations from a fresh
registry yield ids 1, 2, 3 in call order. -/
theorem C8_registry_auto_increment (a o1 o2 o3 : Address)
    (m1 m2 m3 : List Nat) :
    (RegistryState.init a).next_id = 1 ∧
    (∀ (s : RegistryState) (caller owner : Address) (md : List Nat),
      caller = s.admin →
      s.register caller owner md = .ok (s.next_id, { s with
        next_id := s.next_id + 1,
        records := s.records ++ [⟨s.next_id, owner, md, true⟩] })) ∧
    (∃ s1 s2 s3,
      (RegistryState.init a).register a o1 m1 = .ok (1, s1) ∧
      s1.register a o2 m2 = .ok (2, s2) ∧
      s2.register a o3 m3 = .ok (3, s3)) := by
  refine ⟨rfl, fun s caller owner md hc => ?_, ?_⟩
  · simp [RegistryState.register, hc]
  · refine ⟨⟨a, 2, [⟨1, o1, m1, true⟩]⟩,
      ⟨a, 3, [⟨1, o1, m1, true⟩, ⟨2, o2, m2, true⟩]⟩,
      ⟨a, 4, [⟨1, o1, m1, true⟩, ⟨2, o2, m2, true⟩, ⟨3, o3, m3, true⟩]⟩, ?_, ?_, ?_⟩ <;>
    simp [RegistryState.init, RegistryState.register]

/-- Witness for C8 at concrete inputs (admin 4, three owners, empty metadata):
the three assigned ids are 1, 2, 3. -/
theorem C8_registry_auto_increment_witness :
    ∃ s1 s2 s3,
      (RegistryState.init 4).register 4 10 [] = .ok (1, s1) ∧
      s1.register 4 11 [] = .ok (2, s2) ∧
      s2.register 4 12 [] = .ok (3, s3) :=
  (C8_registry_auto_increment 4 10 11 12 [] [] []).2.2

/-- Point update of the first entry matching a key in a keyed collection
(models a point write in a contract key-value store). -/
def updFirst {α : Type} (key : α → Bool) (f : α → α) : List α → List α
  | [] => []
  | x :: rest => if key x then f x :: rest else x :: updFirst key f rest

theorem find?_updFirst_same {α : Type} (key : α → Bool) (f : α → α) (l : List α)
    (x : α) (hfind : l.find? key = some x) (hkey : key (f x) = true) :
    (updFirst key f l).find? key = some (f x) := by
  induction l with
  | nil => simp at hfind
  | cons y rest ih =>
    by_cases hy : key y
    · rw [List.find?_cons_of_pos _ hy] at hfind
      injection hfind with hfind
      subst hfind
      simp [updFirst, hy, List.find?_cons_of_pos _ hkey]
    · rw [List.find?_cons_of_neg _ hy] at hfind
      simp [updFirst, hy, List.find?_cons_of_neg _ hy, ih hfind]

theorem find?_updFirst_ne {α : Type} (key key2 : α → Bool) (f : α → α) (l : List α)
    (h1 : ∀ x, key x = true → key2 x = false)
    (h2 : ∀ x, key2 (f x) = key2 x) :
    (updFirst key f l).find? key2 = l.find? key2 := by
  induction l with
  | nil => rfl
  | cons y rest ih =>
    by_cases hy : key y
    · have hy2 : ¬ key2 y := by simp [h1 y hy]
      have hfy2 : ¬ key2 (f y) := by simp [h2 y, h1 y hy]
      simp only [updFirst, if_pos hy]
      rw [List.find?_cons_of_neg _ hfy2, List.find?_cons_of_neg _ hy2]
    · simp only [updFirst, if_neg hy]
      by_cases hy2 : key2 y
      · rw [List.find?_cons_of_pos _ hy2, List.find?_cons_of_pos _ hy2]
      · rw [List.find?_cons_of_neg _ hy2, List.find?_cons_of_neg _ hy2, ih]

theorem mem_updFirst {α : Type} (key : α → Bool) (f : α → α) (l : List α) (y : α)
    (h : y ∈ updFirst key f l) :
    y ∈ l ∨ ∃ x, l.find? key = some x ∧ y = f x := by
  induction l with
  | nil => simp [updFirst] at h
  | cons z rest ih =>
    by_cases hz : key z
    · simp only [updFirst, if_pos hz, List.mem_cons] at h
      rcases h with h | h
      · exact Or.inr ⟨z, List.find?_cons_of_pos _ hz, h⟩
      · exact Or.inl (List.mem_cons_of_mem _ h)
    · simp only [updFirst, if_neg hz, List.mem_cons] at h
      rcases h with h | h
      · exact Or.inl (h ▸ List.mem_cons_self _ _)
      · rcases ih h with h2 | ⟨x, hx, hyx⟩
        · exact Or.inl (List.mem_cons_of_mem _ h2)
        · exact Or.inr ⟨x, by rw [List.find?_cons_of_neg _ hz]; exact hx, hyx⟩

theorem runCall_error {σ : Type} (f : σ → Except Err σ) (s : σ) (e : Err)
    (h : f s = .error e) : runCall f s = s := by
  simp [runCall, h]

theorem runCall_ok {σ : Type} (f : σ → Except Err σ) (s t : σ)
    (h : f s = .ok t) : runCall f s = t := by
  simp [runCall, h]

/-- Modelled from the spec: fee share of an amount at fee_bps basis points,
rounded down (integer division by 10_000). -/
def feeOf (amount fee_bps : Nat) : Nat := amount * fee_bps / 10000

/-- Modelled from the spec: the restaurant share is the amount minus the fee. -/
def restaurantShare (amount fee_bps : Nat) : Nat := amount - feeOf amount fee_bps

/-- C6: for fee_bps in [0, 10_000] the fee split conserves the amount exactly
(fee + restaurant_share == amount, no dust lost), and for fee_bps = 250 and
amount = 1_000_000 the fee is 25_000 and the restaurant share 975_000. -/
theorem C6_fee_split_conservation (amount fee_bps : Nat) (hbps : fee_bps ≤ 10000) :
    feeOf amount fee_bps + restaurantShare amount fee_bps = amount ∧
    feeOf 1000000 250 = 25000 ∧ restaurantShare 1000000 250 = 975000 := by
  refine ⟨?_, by decide, by decide⟩
  have hfee : feeOf amount fee_bps ≤ amount := by
    calc feeOf amount fee_bps = amount * fee_bps / 10000 := rfl
    _ ≤ amount * 10000 / 10000 :=
        Nat.div_le_div_right (Nat.mul_le_mul_left _ hbps)
    _ = amount := Nat.mul_div_cancel _ (by decide)
  simpa [restaurantShare] using Nat.add_sub_cancel' hfee

/-- Witness for C6 at fee_bps = 250, amount = 1_000_000. -/
theorem C6_fee_split_conservation_witness :
    feeOf 1000000 250 + restaurantShare 1000000 250 = 1000000 ∧
    feeOf 1000000 250 = 25000 ∧ restaurantShare 1000000 250 = 975000 :=
  C6_fee_split_conservation 1000000 250 (by decide)

/-- Modelled from the spec: status of an escrow record; Escrowed is the only
non-terminal state. -/
inductive EscrowStatus where
  | Escrowed
  | Released
  | Refunded
deriving DecidableEq, Repr

/-- Modelled from the spec: an EscrowRecord, one per order id. -/
structure EscrowRecord where
  order_id : Nat
  payer : Address
  amount : Nat
  status : EscrowStatus
deriving DecidableEq, Repr

/-- Modelled from the spec: persistent state of the PaymentEscrow contract
(the Rust source is not in the tree): singleton config (admin, treasury,
fee_bps), the contract custody address on the underlying settlement asset,
that asset ledger, and the escrow records keyed by order id. -/
structure EscrowState where
  admin : Address
  treasury : Address
  fee_bps : Nat
  contractAddr : Address
  asset : List (Address × Nat)
  escrows : List EscrowRecord
deriving DecidableEq, Repr

/-- Point lookup of the escrow record of an order id. -/
def lookupEscrow (s : EscrowState) (order_id : Nat) : Option EscrowRecord :=
  s.escrows.find? (fun q => q.order_id == order_id)

/-- Modelled from the spec: a transfer on the underlying settlement asset;
fails TransferFailed when the source balance is insufficient. -/
def assetTransfer (bals : List (Address × Nat)) (src dst : Address)
    (amount : Nat) : Except Err (List (Address × Nat)) :=
  if getBal bals src < amount then .error .TransferFailed
  else
    let b1 := setBal bals src (getBal bals src - amount)
    .ok (setBal b1 dst (getBal b1 dst + amount))

/-- Modelled from the spec: PaymentEscrow.escrow(order_id, payer, amount).
Fails DuplicateOrder if a record already exists, InvalidAmount on zero, and
requires the payer's asset transfer into contract custody to succeed before
recording the Escrowed record. -/
def EscrowState.escrow (s : EscrowState) (order_id : Nat) (payer : Address)
    (amount : Nat) : Except Err EscrowState :=
  if (lookupEscrow s order_id).isSome then .error .DuplicateOrder
  else if amount = 0 then .error .InvalidAmount
  else
    match assetTransfer s.asset payer s.contractAddr amount with
    | .error e => .error e
    | .ok bals => .ok { s with
        asset := bals,
        escrows := s.escrows ++ [⟨order_id, payer, amount, .Escrowed⟩] }

/-- Modelled from the spec: PaymentEscrow.release(order_id, restaurant).
Admin-gated; NotFound without a record; InvalidState unless Escrowed; then
transfers the fee to the treasury and the remainder to the restaurant and
flips the status to Released, all in one atomic call. -/
def EscrowState.release (s : EscrowState) (caller : Address) (order_id : Nat)
    (restaurant : Address) : Except Err EscrowState :=
  if caller = s.admin then
    match lookupEscrow s order_id with
    | none => .error .NotFound
    | some r =>
      if r.status = .Escrowed then
        match assetTransfer s.asset s.contractAddr s.treasury
            (feeOf r.amount s.fee_bps) with
        | .error e => .error e
        | .ok b1 =>
          match assetTransfer b1 s.contractAddr restaurant
              (restaurantShare r.amount s.fee_bps) with
          | .error e => .error e
          | .ok b2 => .ok { s with
              asset := b2,
              escrows := updFirst (fun q => q.order_id == order_id)
                (fun q => { q with status := .Released }) s.escrows }
      else .error .InvalidState
  else .error .Unauthorized

/-- Modelled from the spec: PaymentEscrow.refund(order_id).  Admin-gated;
valid only from Escrowed; returns the full amount to the payer and flips
the status to Refunded. -/
def EscrowState.refund (s : EscrowState) (caller : Address) (order_id : Nat) :
    Except Err EscrowState :=
  if caller = s.admin then
    match lookupEscrow s order_id with
    | none => .error .NotFound
    | some r =>
      if r.status = .Escrowed then
        match assetTransfer s.asset s.contractAddr r.payer r.amount with
        | .error e => .error e
        | .ok b1 => .ok { s with
            asset := b1,
            escrows := updFirst (fun q => q.order_id == order_id)
              (fun q => { q with status := .Refunded }) s.escrows }
      else .error .InvalidState
  else .error .Unauthorized

/-- An externally invoked PaymentEscrow call, for reasoning over sequences. -/
inductive EscOp where
  | escrowOp (order_id : Nat) (payer : Address) (amount : Nat)
  | releaseOp (caller : Address) (order_id : Nat) (restaurant : Address)
  | refundOp (caller : Address) (order_id : Nat)
deriving DecidableEq, Repr

/-- Host-level execution of one PaymentEscrow call (rollback on failure). -/
def escStep (s : EscrowState) (op : EscOp) : EscrowState :=
  match op with
  | .escrowOp oid p a => runCall (fun t => t.escrow oid p a) s
  | .releaseOp c oid r => runCall (fun t => t.release c oid r) s
  | .refundOp c oid => runCall (fun t => t.refund c oid) s

theorem release_nonEscrowed (s : EscrowState) (oid : Nat) (r : EscrowRecord)
    (hlook : lookupEscrow s oid = some r) (hterm : r.status ≠ .Escrowed)
    (c rest : Address) :
    s.release c oid rest =
      .error (if c = s.admin then .InvalidState else .Unauthorized) := by
  by_cases hc : c = s.admin
  · simp [EscrowState.release, hc, hlook, hterm]
  · simp [EscrowState.release, hc]

theorem refund_nonEscrowed (s : EscrowState) (oid : Nat) (r : EscrowRecord)
    (hlook : lookupEscrow s oid = some r) (hterm : r.status ≠ .Escrowed)
    (c : Address) :
    s.refund c oid =
      .error (if c = s.admin then .InvalidState else .Unauthorized) := by
  by_cases hc : c = s.admin
  · simp [EscrowState.refund, hc, hlook, hterm]
  · simp [EscrowState.refund, hc]

theorem escrow_ok_shape (s : EscrowState) (oid : Nat) (p : Address) (a : Nat)
    (s2 : EscrowState) (h : s.escrow oid p a = .ok s2) :
    lookupEscrow s oid = none ∧
    ∃ bals, assetTransfer s.asset p s.contractAddr a = .ok bals ∧
      s2 = { s with
        asset := bals,
        escrows := s.escrows ++ [⟨oid, p, a, .Escrowed⟩] } := by
  unfold EscrowState.escrow at h
  split at h
  · cases h
  next hdup =>
    split at h
    · cases h
    · split at h
      · cases h
      next bals htr =>
        injection h with h
        exact ⟨Option.not_isSome_iff_eq_none.mp hdup, bals, htr, h.symm⟩

theorem release_ok_shape (s : EscrowState) (c : Address) (oid : Nat)
    (rest : Address) (s2 : EscrowState) (h : s.release c oid rest = .ok s2) :
    c = s.admin ∧ ∃ r b1 b2,
      lookupEscrow s oid = some r ∧ r.status = .Escrowed ∧
      assetTransfer s.asset s.contractAddr s.treasury
        (feeOf r.amount s.fee_bps) = .ok b1 ∧
      assetTransfer b1 s.contractAddr rest
        (restaurantShare r.amount s.fee_bps) = .ok b2 ∧
      s2 = { s with
        asset := b2,
        escrows := updFirst (fun q => q.order_id == oid)
          (fun q => { q with status := .Released }) s.escrows } := by
  unfold EscrowState.release at h
  split at h
  case isTrue hc =>
    split at h
    · cases h
    next r heq =>
      split at h
      case isTrue hst =>
        split at h
        · cases h
        next b1 h1 =>
          split at h
          · cases h
          next b2 h2 =>
            injection h with h
            exact ⟨hc, r, b1, b2, heq, hst, h1, h2, h.symm⟩
      case isFalse hst => cases h
  case isFalse hc => cases h

theorem refund_ok_shape (s : EscrowState) (c : Address) (oid : Nat)
    (s2 : EscrowState) (h : s.refund c oid = .ok s2) :
    c = s.admin ∧ ∃ r b1,
      lookupEscrow s oid = some r ∧ r.status = .Escrowed ∧
      assetTransfer s.asset s.contractAddr r.payer r.amount = .ok b1 ∧
      s2 = { s with
        asset := b1,
        escrows := updFirst (fun q => q.order_id == oid)
          (fun q => { q with status := .Refunded }) s.escrows } := by
  unfold EscrowState.refund at h
  split at h
  case isTrue hc =>
    split at h
    · cases h
    next r heq =>
      split at h
      case isTrue hst =>
        split at h
        · cases h
        next b1 h1 =>
          injection h with h
          exact ⟨hc, r, b1, heq, hst, h1, h.symm⟩
      case isFalse hst => cases h
  case isFalse hc => cases h

theorem escStep_preserves_record (s : EscrowState) (oid : Nat)
    (r : EscrowRecord) (hlook : lookupEscrow s oid = some r)
    (hterm : r.status ≠ .Escrowed) (op : EscOp) :
    lookupEscrow (escStep s op) oid = some r := by
  cases op with
  | escrowOp oid2 p a =>
    rw [escStep]
    cases hres : EscrowState.escrow s oid2 p a with
    | error e => rw [runCall_error _ _ _ hres]; exact hlook
    | ok s2 =>
      rw [runCall_ok _ _ _ hres]
      obtain ⟨hnone, bals, _, hs2⟩ := escrow_ok_shape s oid2 p a s2 hres
      have hne : oid2 ≠ oid := by
        intro heq
        rw [heq, hlook] at hnone
        cases hnone
      rw [hs2]
      have hl : List.find? (fun q => q.order_id == oid) s.escrows = some r := hlook
      show List.find? (fun q => q.order_id == oid)
        (s.escrows ++ [⟨oid2, p, a, .Escrowed⟩]) = some r
      rw [List.find?_append, hl]
      rfl
  | releaseOp c oid2 rest =>
    rw [escStep]
    cases hres : EscrowState.release s c oid2 rest with
    | error e => rw [runCall_error _ _ _ hres]; exact hlook
    | ok s2 =>
      rw [runCall_ok _ _ _ hres]
      obtain ⟨_, r2, b1, b2, hlook2, hst2, _, _, hs2⟩ :=
        release_ok_shape s c oid2 rest s2 hres
      have hne : oid2 ≠ oid := by
        intro heq
        rw [heq, hlook] at hlook2
        injection hlook2 with hlook2
        exact hterm (hlook2 ▸ hst2)
      rw [hs2]
      show List.find? _ (updFirst _ _ s.escrows) = some r
      rw [find?_updFirst_ne _ _ _ _ ?h1 ?hpres]
      · exact hlook
      case h1 =>
        intro x hx
        simp only [beq_iff_eq] at hx ⊢
        simp [hx, hne]
      case hpres => intro x; rfl
  | refundOp c oid2 =>
    rw [escStep]
    cases hres : EscrowState.refund s c oid2 with
    | error e => rw [runCall_error _ _ _ hres]; exact hlook
    | ok s2 =>
      rw [runCall_ok _ _ _ hres]
      obtain ⟨_, r2, b1, hlook2, hst2, _, hs2⟩ :=
        refund_ok_shape s c oid2 s2 hres
      have hne : oid2 ≠ oid := by
        intro heq
        rw [heq, hlook] at hlook2
        injection hlook2 with hlook2
        exact hterm (hlook2 ▸ hst2)
      rw [hs2]
      show List.find? _ (updFirst _ _ s.escrows) = some r
      rw [find?_updFirst_ne _ _ _ _ ?h1b ?hpresb]
      · exact hlook
      case h1b =>
        intro x hx
        simp only [beq_iff_eq] at hx ⊢
        simp [hx, hne]
      case hpresb => intro x; rfl

theorem foldl_preserves_terminal (oid : Nat) (r : EscrowRecord)
    (hterm : r.status ≠ .Escrowed) (ops : List EscOp) :
    ∀ s : EscrowState, lookupEscrow s oid = some r →
      lookupEscrow (List.foldl escStep s ops) oid = some r := by
  induction ops with
  | nil => intro s h; exact h
  | cons op rest ih =>
    intro s h
    exact ih _ (escStep_preserves_record s oid r h hterm op)

/-- C2: an escrow record that has left Escrowed (Released by release or
Refunded by refund) is frozen: any further release or refund by the admin
fails with InvalidState, and across any sequence of escrow, release and
refund calls the record never changes, in particular it never returns to
Escrowed; a successful release or refund flips the status to the matching
terminal state, so each can succeed at most once per order id. -/
theorem C2_escrow_terminal (s : EscrowState) (oid : Nat) (r : EscrowRecord)
    (hlook : lookupEscrow s oid = some r) :
    (∀ c rest s2, s.release c oid rest = .ok s2 →
      lookupEscrow s2 oid = some { r with status := .Released }) ∧
    (∀ c s2, s.refund c oid = .ok s2 →
      lookupEscrow s2 oid = some { r with status := .Refunded }) ∧
    (r.status ≠ .Escrowed →
      (∀ rest, s.release s.admin oid rest = .error .InvalidState) ∧
      (s.refund s.admin oid = .error .InvalidState) ∧
      (∀ ops : List EscOp, lookupEscrow (List.foldl escStep s ops) oid = some r)) := by
  have hl0 : List.find? (fun q : EscrowRecord => q.order_id == oid) s.escrows =
      some r := hlook
  have hkey := List.find?_some hl0
  refine ⟨?_, ?_, fun hterm => ⟨?_, ?_, ?_⟩⟩
  · intro c rest s2 hrel
    obtain ⟨_, r2, b1, b2, hlook2, _, _, _, hs2⟩ :=
      release_ok_shape s c oid rest s2 hrel
    rw [hlook] at hlook2
    injection hlook2 with hlook2
    subst hlook2
    rw [hs2]
    exact find?_updFirst_same _ _ _ _ hl0 hkey
  · intro c s2 href
    obtain ⟨_, r2, b1, hlook2, _, _, hs2⟩ := refund_ok_shape s c oid s2 href
    rw [hlook] at hlook2
    injection hlook2 with hlook2
    subst hlook2
    rw [hs2]
    exact find?_updFirst_same _ _ _ _ hl0 hkey
  · intro rest
    have h := release_nonEscrowed s oid r hlook hterm s.admin rest
    simpa using h
  · have h := refund_nonEscrowed s oid r hlook hterm s.admin
    simpa using h
  · intro ops
    exact foldl_preserves_terminal oid r hterm ops s hlook

/-- Witness for C2 on a concrete state holding a Released record for order 5:
an admin release retry fails InvalidState and a subsequent escrow/refund
sequence leaves the record unchanged. -/
theorem C2_escrow_terminal_witness :
    (EscrowState.release ⟨1, 2, 250, 3, [], [⟨5, 9, 100, .Released⟩]⟩ 1 5 4 =
      .error .InvalidState) ∧
    (EscrowState.refund ⟨1, 2, 250, 3, [], [⟨5, 9, 100, .Released⟩]⟩ 1 5 =
      .error .InvalidState) ∧
    lookupEscrow (List.foldl escStep ⟨1, 2, 250, 3, [], [⟨5, 9, 100, .Released⟩]⟩
      [.escrowOp 5 9 77, .refundOp 1 5, .releaseOp 1 5 4]) 5 =
      some ⟨5, 9, 100, .Released⟩ := by
  have h := (C2_escrow_terminal ⟨1, 2, 250, 3, [], [⟨5, 9, 100, .Released⟩]⟩ 5
    ⟨5, 9, 100, .Released⟩ (by decide)).2.2 (by decide)
  exact ⟨h.1 4, h.2.1, h.2.2 _⟩

theorem assetTransfer_ok_bal (bals : List (Address × Nat)) (src dst : Address)
    (amount : Nat) (bals2 : List (Address × Nat)) (hsd : src ≠ dst)
    (h : assetTransfer bals src dst amount = .ok bals2) :
    getBal bals2 dst = getBal bals dst + amount ∧
    getBal bals2 src = getBal bals src - amount ∧
    ∀ a, a ≠ src → a ≠ dst → getBal bals2 a = getBal bals a := by
  unfold assetTransfer at h
  split at h
  · cases h
  · injection h with h
    subst h
    refine ⟨?_, ?_, ?_⟩
    · rw [getBal_setBal_same, getBal_setBal_ne _ _ _ _ hsd]
    · rw [getBal_setBal_ne _ _ _ _ (Ne.symm hsd), getBal_setBal_same]
    · intro a hs hd
      rw [getBal_setBal_ne _ _ _ _ (Ne.symm hd), getBal_setBal_ne _ _ _ _ (Ne.symm hs)]

theorem mint_ok_shape (s : TokenState) (c d : Address) (a : Nat)
    (t2 : TokenState) (h : s.mint c d a = .ok t2) :
    c = s.minter ∧ a ≠ 0 ∧ t2 = { s with
      total_supply := s.total_supply + a,
      balances := setBal s.balances d (getBal s.balances d + a) } := by
  unfold TokenState.mint at h
  split at h
  case isTrue hc =>
    split at h
    · cases h
    next h0 =>
      split at h
      · cases h
      · split at h
        · cases h
        · injection h with h
          exact ⟨hc, h0, h.symm⟩
  case isFalse hc => cases h

/-- Modelled from the spec: the order status chain, strictly forward-only,
with the side terminal Cancelled. -/
inductive OrderStatus where
  | Placed
  | Confirmed
  | Preparing
  | OutForDelivery
  | Delivered
  | Cancelled
deriving DecidableEq, Repr

/-- Modelled from the spec: the immediate successor in the chain
Placed, Confirmed, Preparing, OutForDelivery, Delivered. -/
def nextInChain : OrderStatus → Option OrderStatus
  | .Placed => some .Confirmed
  | .Confirmed => some .Preparing
  | .Preparing => some .OutForDelivery
  | .OutForDelivery => some .Delivered
  | .Delivered => none
  | .Cancelled => none

/-- Modelled from the spec: the forward-only transition table; the only
permitted moves are to the immediate successor in the chain, or to
Cancelled from Placed or Confirmed. -/
def validTransition (cur next : OrderStatus) : Bool :=
  nextInChain cur == some next ||
    (next == .Cancelled && (cur == .Placed || cur == .Confirmed))

/-- Modelled from the spec: the BITE reward for a delivered order,
max(total_amount / 10_000, 10^7) with integer division (1 BITE minimum at
7 decimals). -/
def biteReward (total_amount : Nat) : Nat :=
  max (total_amount / 10000) 10000000

/-- Modelled from the spec: an Order record. -/
structure Order where
  id : Nat
  customer : Address
  restaurant_id : Nat
  total_amount : Nat
  status : OrderStatus
  reward_minted : Bool
deriving DecidableEq, Repr

/-- Modelled from the spec: the OrderLifecycle singleton config. -/
structure OrderConfig where
  admin : Address
  rewards_enabled : Bool
deriving DecidableEq, Repr

/-- Modelled from the spec: the world visible to the OrderLifecycle contract
(the Rust source is not in the tree): its config, its own contract address
(the caller it presents to LoyaltyToken.mint), its orders, and the
LoyaltyToken contract state it calls into synchronously. -/
structure OrderWorld where
  config : OrderConfig
  contractAddr : Address
  next_order_id : Nat
  orders : List Order
  token : TokenState
deriving DecidableEq, Repr

/-- Point lookup of an order by id. -/
def lookupOrder (w : OrderWorld) (order_id : Nat) : Option Order :=
  w.orders.find? (fun o => o.id == order_id)

/-- Modelled from the spec: place_order(customer, restaurant_id,
total_amount); InvalidAmount on zero total, assigns an incrementing id,
initial status Placed, reward_minted false. -/
def OrderWorld.place_order (w : OrderWorld) (customer : Address)
    (restaurant_id total_amount : Nat) : Except Err (Nat × OrderWorld) :=
  if total_amount = 0 then .error .InvalidAmount
  else .ok (w.next_order_id, { w with
    next_order_id := w.next_order_id + 1,
    orders := w.orders ++
      [⟨w.next_order_id, customer, restaurant_id, total_amount, .Placed, false⟩] })

/-- Modelled from the spec: advance_status(order_id, next_status).
Admin-gated; NotFound without a record; OrderClosed on a terminal order;
InvalidTransition unless the transition table permits the move.  On the
transition into Delivered with rewards_enabled and reward_minted still
false, it calls LoyaltyToken.mint(customer, biteReward total_amount) and
flips reward_minted in the same call; a mint failure fails the whole call. -/
def OrderWorld.advance_status (w : OrderWorld) (caller : Address)
    (order_id : Nat) (next : OrderStatus) : Except Err OrderWorld :=
  if caller = w.config.admin then
    match lookupOrder w order_id with
    | none => .error .NotFound
    | some o =>
      if o.status = .Delivered ∨ o.status = .Cancelled then .error .OrderClosed
      else if validTransition o.status next then
        if next = .Delivered ∧ w.config.rewards_enabled = true ∧
            o.reward_minted = false then
          match w.token.mint w.contractAddr o.customer
              (biteReward o.total_amount) with
          | .error e => .error e
          | .ok t2 => .ok { w with
              token := t2,
              orders := updFirst (fun q => q.id == order_id)
                (fun q => { q with status := next, reward_minted := true })
                w.orders }
        else .ok { w with
          orders := updFirst (fun q => q.id == order_id)
            (fun q => { q with status := next }) w.orders }
      else .error .InvalidTransition
  else .error .Unauthorized

/-- An externally invoked advance_status call, for reasoning over
sequences. -/
structure AdvCall where
  caller : Address
  order_id : Nat
  next : OrderStatus
deriving DecidableEq, Repr

/-- Host-level execution of one advance_status call (rollback on failure). -/
def ordStep (w : OrderWorld) (c : AdvCall) : OrderWorld :=
  runCall (fun t => t.advance_status c.caller c.order_id c.next) w

theorem advance_ok_shape (w : OrderWorld) (c : Address) (oid : Nat)
    (next : OrderStatus) (w2 : OrderWorld)
    (h : w.advance_status c oid next = .ok w2) :
    c = w.config.admin ∧ ∃ o,
      lookupOrder w oid = some o ∧
      ¬(o.status = .Delivered ∨ o.status = .Cancelled) ∧
      validTransition o.status next = true ∧
      ((next = .Delivered ∧ w.config.rewards_enabled = true ∧
          o.reward_minted = false ∧
          ∃ t2, w.token.mint w.contractAddr o.customer
              (biteReward o.total_amount) = .ok t2 ∧
            w2 = { w with
              token := t2,
              orders := updFirst (fun q => q.id == oid)
                (fun q => { q with status := next, reward_minted := true })
                w.orders }) ∨
        (¬(next = .Delivered ∧ w.config.rewards_enabled = true ∧
            o.reward_minted = false) ∧
          w2 = { w with
            orders := updFirst (fun q => q.id == oid)
              (fun q => { q with status := next }) w.orders })) := by
  unfold OrderWorld.advance_status at h
  split at h
  case isTrue hc =>
    split at h
    · cases h
    next o heq =>
      split at h
      case isTrue hterm => cases h
      case isFalse hterm =>
        split at h
        case isTrue hvalid =>
          split at h
          case isTrue hrew =>
            split at h
            · cases h
            next t2 hmint =>
              injection h with h
              exact ⟨hc, o, heq, hterm, hvalid,
                Or.inl ⟨hrew.1, hrew.2.1, hrew.2.2, t2, hmint, h.symm⟩⟩
          case isFalse hrew =>
            injection h with h
            exact ⟨hc, o, heq, hterm, hvalid, Or.inr ⟨hrew, h.symm⟩⟩
        case isFalse hvalid => cases h
  case isFalse hc => cases h

theorem advance_nonreward_ok (w : OrderWorld) (oid : Nat) (next : OrderStatus)
    (o : Order) (hlook : lookupOrder w oid = some o)
    (hterm : ¬(o.status = .Delivered ∨ o.status = .Cancelled))
    (hvalid : validTransition o.status next = true)
    (hnd : next ≠ .Delivered) :
    w.advance_status w.config.admin oid next = .ok { w with
      orders := updFirst (fun q => q.id == oid)
        (fun q => { q with status := next }) w.orders } := by
  simp [OrderWorld.advance_status, hlook, hterm, hvalid, hnd]

theorem advance_reward_ok (w : OrderWorld) (oid : Nat) (o : Order)
    (t2 : TokenState) (hlook : lookupOrder w oid = some o)
    (hterm : ¬(o.status = .Delivered ∨ o.status = .Cancelled))
    (hvalid : validTransition o.status .Delivered = true)
    (hrew : w.config.rewards_enabled = true) (hmf : o.reward_minted = false)
    (hmint : w.token.mint w.contractAddr o.customer
      (biteReward o.total_amount) = .ok t2) :
    w.advance_status w.config.admin oid .Delivered = .ok { w with
      token := t2,
      orders := updFirst (fun q => q.id == oid)
        (fun q => { q with status := .Delivered, reward_minted := true })
        w.orders } := by
  simp [OrderWorld.advance_status, hlook, hterm, hvalid, hrew, hmf, hmint]

theorem biteReward_ne_zero (t : Nat) : biteReward t ≠ 0 := by
  simp [biteReward, Nat.max_eq_zero_iff]

theorem advance_rewoff_ok (w : OrderWorld) (oid : Nat) (o : Order)
    (hlook : lookupOrder w oid = some o)
    (hterm : ¬(o.status = .Delivered ∨ o.status = .Cancelled))
    (hvalid : validTransition o.status .Delivered = true)
    (hroff : w.config.rewards_enabled = false) :
    w.advance_status w.config.admin oid .Delivered = .ok { w with
      orders := updFirst (fun q => q.id == oid)
        (fun q => { q with status := .Delivered }) w.orders } := by
  simp [OrderWorld.advance_status, hlook, hterm, hvalid, hroff]

/-- C5: advance_status succeeds only on moves the transition table permits
(immediate successor in the chain, or Cancelled from Placed or Confirmed);
an admin call with an impermissible move from a non-terminal state fails
InvalidTransition (in particular the skip Placed to Delivered and the
backward move Preparing to Placed are impermissible); mutating an order
already Delivered or Cancelled fails OrderClosed; and from Placed the full
chain Confirmed, Preparing, OutForDelivery, Delivered always succeeds in
order (given the deployment wiring: the order contract is the token minter
and the reward does not overflow u128). -/
theorem C5_forward_only_transitions (w : OrderWorld) (c : Address) (oid : Nat)
    (next : OrderStatus) (o : Order) (hlook : lookupOrder w oid = some o) :
    (∀ w2, w.advance_status c oid next = .ok w2 →
      validTransition o.status next = true) ∧
    (c = w.config.admin → ¬(o.status = .Delivered ∨ o.status = .Cancelled) →
      validTransition o.status next = false →
      w.advance_status c oid next = .error .InvalidTransition) ∧
    (c = w.config.admin → (o.status = .Delivered ∨ o.status = .Cancelled) →
      w.advance_status c oid next = .error .OrderClosed) ∧
    (validTransition .Placed .Delivered = false ∧
      validTransition .Preparing .Placed = false ∧
      validTransition .Placed .Confirmed = true ∧
      validTransition .Confirmed .Preparing = true ∧
      validTransition .Preparing .OutForDelivery = true ∧
      validTransition .OutForDelivery .Delivered = true ∧
      validTransition .Placed .Cancelled = true ∧
      validTransition .Confirmed .Cancelled = true ∧
      validTransition .Preparing .Cancelled = false) ∧
    (o.status = .Placed → o.reward_minted = false →
      w.token.minter = w.contractAddr →
      w.token.total_supply + biteReward o.total_amount ≤ U128_MAX →
      getBal w.token.balances o.customer + biteReward o.total_amount ≤ U128_MAX →
      ∃ w1 w2 w3 w4,
        w.advance_status w.config.admin oid .Confirmed = .ok w1 ∧
        w1.advance_status w.config.admin oid .Preparing = .ok w2 ∧
        w2.advance_status w.config.admin oid .OutForDelivery = .ok w3 ∧
        w3.advance_status w.config.admin oid .Delivered = .ok w4) := by
  have hl0 : List.find? (fun q : Order => q.id == oid) w.orders = some o := hlook
  have hkey := List.find?_some hl0
  refine ⟨?_, ?_, ?_, by decide, ?_⟩
  · intro w2 h
    obtain ⟨_, o2, hlook2, _, hvalid, _⟩ := advance_ok_shape w c oid next w2 h
    rw [hlook] at hlook2
    injection hlook2 with hlook2
    exact hlook2 ▸ hvalid
  · intro hc hterm hinv
    simp [OrderWorld.advance_status, hc, hlook, hterm, hinv]
  · intro hc hterm
    simp [OrderWorld.advance_status, hc, hlook, hterm]
  · intro hst hmf hminter hs hb
    have hterm0 : ¬(o.status = .Delivered ∨ o.status = .Cancelled) := by
      rw [hst]; decide
    have h1 := advance_nonreward_ok w oid .Confirmed o hlook hterm0
      (by rw [hst]; decide) (by decide)
    have hlook1 : lookupOrder { w with
        orders := updFirst (fun q => q.id == oid)
          (fun q => { q with status := OrderStatus.Confirmed }) w.orders } oid =
        some { o with status := OrderStatus.Confirmed } :=
      find?_updFirst_same _ _ _ _ hl0 hkey
    have hl1 : List.find? (fun q : Order => q.id == oid)
        (updFirst (fun q => q.id == oid)
          (fun q => { q with status := OrderStatus.Confirmed }) w.orders) =
        some { o with status := OrderStatus.Confirmed } := hlook1
    have h2 := advance_nonreward_ok _ oid .Preparing _ hlook1
      (show ¬(OrderStatus.Confirmed = .Delivered ∨
        OrderStatus.Confirmed = .Cancelled) by decide)
      (show validTransition OrderStatus.Confirmed OrderStatus.Preparing = true
        by decide)
      (by decide)
    have hlook2 : lookupOrder { w with
        orders := updFirst (fun q => q.id == oid)
          (fun q => { q with status := OrderStatus.Preparing })
          (updFirst (fun q => q.id == oid)
            (fun q => { q with status := OrderStatus.Confirmed }) w.orders) } oid =
        some { o with status := OrderStatus.Preparing } := by
      have hstep := find?_updFirst_same (fun q : Order => q.id == oid)
        (fun q => { q with status := OrderStatus.Preparing })
        (updFirst (fun q : Order => q.id == oid)
          (fun q => { q with status := OrderStatus.Confirmed }) w.orders)
        { o with status := OrderStatus.Confirmed } hl1 hkey
      exact hstep
    have hl2 : List.find? (fun q : Order => q.id == oid)
        (updFirst (fun q => q.id == oid)
          (fun q => { q with status := OrderStatus.Preparing })
          (updFirst (fun q => q.id == oid)
            (fun q => { q with status := OrderStatus.Confirmed }) w.orders)) =
        some { o with status := OrderStatus.Preparing } := hlook2
    have h3 := advance_nonreward_ok _ oid .OutForDelivery _ hlook2
      (show ¬(OrderStatus.Preparing = .Delivered ∨
        OrderStatus.Preparing = .Cancelled) by decide)
      (show validTransition OrderStatus.Preparing OrderStatus.OutForDelivery =
        true by decide)
      (by decide)
    have hlook3 : lookupOrder { w with
        orders := updFirst (fun q => q.id == oid)
          (fun q => { q with status := OrderStatus.OutForDelivery })
          (updFirst (fun q => q.id == oid)
            (fun q => { q with status := OrderStatus.Preparing })
            (updFirst (fun q => q.id == oid)
              (fun q => { q with status := OrderStatus.Confirmed }) w.orders)) } oid =
        some { o with status := OrderStatus.OutForDelivery } := by
      have hstep := find?_updFirst_same (fun q : Order => q.id == oid)
        (fun q => { q with status := OrderStatus.OutForDelivery })
        (updFirst (fun q : Order => q.id == oid)
          (fun q => { q with status := OrderStatus.Preparing })
          (updFirst (fun q : Order => q.id == oid)
            (fun q => { q with status := OrderStatus.Confirmed }) w.orders))
        { o with status := OrderStatus.Preparing } hl2 hkey
      exact hstep
    by_cases hrw : w.config.rewards_enabled = true
    · have hmint : TokenState.mint w.token w.contractAddr o.customer
          (biteReward o.total_amount) = .ok { w.token with
            total_supply := w.token.total_supply + biteReward o.total_amount,
            balances := setBal w.token.balances o.customer
              (getBal w.token.balances o.customer + biteReward o.total_amount) } := by
        simp [TokenState.mint, hminter, biteReward_ne_zero,
          Nat.not_lt.mpr hs, Nat.not_lt.mpr hb]
      have h4 := advance_reward_ok _ oid _ _ hlook3
        (show ¬(OrderStatus.OutForDelivery = .Delivered ∨
          OrderStatus.OutForDelivery = .Cancelled) by decide)
        (show validTransition OrderStatus.OutForDelivery OrderStatus.Delivered =
          true by decide)
        hrw hmf hmint
      exact ⟨_, _, _, _, h1, h2, h3, h4⟩
    · have hroff : w.config.rewards_enabled = false := by
        simpa using hrw
      have h4 := advance_rewoff_ok _ oid _ hlook3
        (show ¬(OrderStatus.OutForDelivery = .Delivered ∨
          OrderStatus.OutForDelivery = .Cancelled) by decide)
        (show validTransition OrderStatus.OutForDelivery OrderStatus.Delivered =
          true by decide)
        hroff
      exact ⟨_, _, _, _, h1, h2, h3, h4⟩

/-- Witness for C5 on a concrete world (one Placed order, rewards enabled,
the order contract wired as token minter): the skip Placed to Delivered
fails InvalidTransition and the full chain succeeds. -/
theorem C5_forward_only_transitions_witness :
    (OrderWorld.advance_status
      ⟨⟨1, true⟩, 50, 2, [⟨1, 9, 1, 10000000, .Placed, false⟩], ⟨1, 50, 0, []⟩⟩
      1 1 .Delivered = .error .InvalidTransition) ∧
    (∃ w1 w2 w3 w4,
      OrderWorld.advance_status
        ⟨⟨1, true⟩, 50, 2, [⟨1, 9, 1, 10000000, .Placed, false⟩], ⟨1, 50, 0, []⟩⟩
        1 1 .Confirmed = .ok w1 ∧
      w1.advance_status 1 1 .Preparing = .ok w2 ∧
      w2.advance_status 1 1 .OutForDelivery = .ok w3 ∧
      w3.advance_status 1 1 .Delivered = .ok w4) := by
  have h := C5_forward_only_transitions
    ⟨⟨1, true⟩, 50, 2, [⟨1, 9, 1, 10000000, .Placed, false⟩], ⟨1, 50, 0, []⟩⟩
    1 1 .Delivered ⟨1, 9, 1, 10000000, .Placed, false⟩ (by decide)
  exact ⟨h.2.1 rfl (by decide) (by decide),
    h.2.2.2.2 rfl rfl (by decide) (by decide) (by decide)⟩

/-- C1: a successful advance into Delivered with rewards enabled and the
reward not yet minted credits the customer with exactly
biteReward total_amount = max(total_amount / 10_000, 10_000_000) base
units; in particular total_amount 10_000_000 yields 10_000_000 (the 1 BITE
minimum floor) and 200_000_000_000 yields 20_000_000. -/
theorem C1_reward_on_delivery (w : OrderWorld) (c : Address) (oid : Nat)
    (o : Order) (w2 : OrderWorld) (hlook : lookupOrder w oid = some o)
    (_hpos : 0 < o.total_amount) (hrew : w.config.rewards_enabled = true)
    (hmf : o.reward_minted = false)
    (hadv : w.advance_status c oid .Delivered = .ok w2) :
    getBal w2.token.balances o.customer =
      getBal w.token.balances o.customer + biteReward o.total_amount ∧
    biteReward o.total_amount = max (o.total_amount / 10000) 10000000 ∧
    biteReward 10000000 = 10000000 ∧
    biteReward 200000000000 = 20000000 := by
  refine ⟨?_, rfl, by decide, by decide⟩
  obtain ⟨_, o2, hlook2, _, _, hbr⟩ := advance_ok_shape w c oid .Delivered w2 hadv
  rw [hlook] at hlook2
  injection hlook2 with hlook2
  subst hlook2
  rcases hbr with ⟨_, _, _, t2, hmint, hw2⟩ | ⟨hnot, _⟩
  · obtain ⟨_, _, ht2⟩ := mint_ok_shape _ _ _ _ _ hmint
    rw [hw2]
    show getBal t2.balances o.customer = _
    rw [ht2]
    show getBal (setBal w.token.balances o.customer
      (getBal w.token.balances o.customer + biteReward o.total_amount))
      o.customer = _
    rw [getBal_setBal_same]
  · exact absurd ⟨rfl, hrew, hmf⟩ hnot

/-- Witness for C1: a concrete delivery of an order with total 10_000_000
stroops mints exactly 10_000_000 base units (1 BITE) to the customer. -/
theorem C1_reward_on_delivery_witness :
    getBal [(9, 10000000)] 9 = getBal [] 9 + biteReward 10000000 ∧
    biteReward 10000000 = max (10000000 / 10000) 10000000 ∧
    biteReward 10000000 = 10000000 ∧
    biteReward 200000000000 = 20000000 :=
  C1_reward_on_delivery
    ⟨⟨1, true⟩, 50, 2, [⟨1, 9, 1, 10000000, .OutForDelivery, false⟩],
      ⟨1, 50, 0, []⟩⟩ 1 1 ⟨1, 9, 1, 10000000, .OutForDelivery, false⟩
    ⟨⟨1, true⟩, 50, 2, [⟨1, 9, 1, 10000000, .Delivered, true⟩],
      ⟨1, 50, 10000000, [(9, 10000000)]⟩⟩
    (by decide) (by decide) rfl rfl (by rfl)

/-- The delivered-implies-minted invariant over all stored orders. -/
def mintedInv (w : OrderWorld) : Prop :=
  ∀ o ∈ w.orders, o.status = .Delivered → o.reward_minted = true

theorem ordStep_preserves (w : OrderWorld)
    (hrew : w.config.rewards_enabled = true) (hinv : mintedInv w)
    (cal : AdvCall) :
    mintedInv (ordStep w cal) ∧ (ordStep w cal).config = w.config := by
  rw [ordStep]
  cases hres : w.advance_status cal.caller cal.order_id cal.next with
  | error e => rw [runCall_error _ _ _ hres]; exact ⟨hinv, rfl⟩
  | ok w2 =>
    rw [runCall_ok _ _ _ hres]
    obtain ⟨_, o, hlook, _, _, hbr⟩ :=
      advance_ok_shape w cal.caller cal.order_id cal.next w2 hres
    have hl : List.find? (fun q : Order => q.id == cal.order_id) w.orders =
      some o := hlook
    rcases hbr with ⟨hnextD, _, _, t2, _, hw2⟩ | ⟨hnot, hw2⟩
    · subst hw2
      refine ⟨?_, rfl⟩
      intro o2 ho2 _
      rcases mem_updFirst _ _ _ _ ho2 with hmem | ⟨o3, hfind, ho23⟩
      · exact hinv o2 hmem (by assumption)
      · rw [ho23]
    · subst hw2
      refine ⟨?_, rfl⟩
      intro o2 ho2 hst2
      rcases mem_updFirst _ _ _ _ ho2 with hmem | ⟨o3, hfind, ho23⟩
      · exact hinv o2 hmem hst2
      · subst ho23
        have hnextD : cal.next = .Delivered := hst2
        by_cases hm : o3.reward_minted = false
        · refine absurd ⟨hnextD, hrew, ?_⟩ hnot
          rw [hl] at hfind
          injection hfind with hfind
          rw [hfind]
          exact hm
        · show o3.reward_minted = true
          simpa using hm

theorem foldl_ordStep_inv (calls : List AdvCall) :
    ∀ w : OrderWorld, w.config.rewards_enabled = true → mintedInv w →
      mintedInv (List.foldl ordStep w calls) ∧
      (List.foldl ordStep w calls).config = w.config := by
  induction calls with
  | nil => intro w _ hinv; exact ⟨hinv, rfl⟩
  | cons cal rest ih =>
    intro w hrew hinv
    obtain ⟨hinv2, hcfg⟩ := ordStep_preserves w hrew hinv cal
    obtain ⟨hinv3, hcfg3⟩ := ih (ordStep w cal)
      (by rw [hcfg]; exact hrew) hinv2
    refine ⟨?_, ?_⟩
    · rw [List.foldl_cons]
      exact hinv3
    · rw [List.foldl_cons, hcfg3, hcfg]

/-- C3: in a successful advance_status call, an order whose reward_minted
flips from false to true has moved into Delivered in that same call (and
was not Delivered before); reward_minted is never unset by any call, so it
flips false to true at most once across any sequence; and with rewards
enabled, the delivered-implies-minted invariant is preserved by every
sequence of advance_status calls, so no reachable state shows Delivered
with reward_minted still false. -/
theorem C3_no_double_mint (w : OrderWorld) :
    (∀ c oid next w2 o o2,
      w.advance_status c oid next = .ok w2 →
      lookupOrder w oid = some o → lookupOrder w2 oid = some o2 →
      o.reward_minted = false → o2.reward_minted = true →
      o2.status = .Delivered ∧ o.status ≠ .Delivered) ∧
    (∀ (cal : AdvCall) (oid : Nat) (o o2 : Order),
      lookupOrder w oid = some o → o.reward_minted = true →
      lookupOrder (ordStep w cal) oid = some o2 → o2.reward_minted = true) ∧
    (w.config.rewards_enabled = true → mintedInv w →
      ∀ calls : List AdvCall, mintedInv (List.foldl ordStep w calls)) := by
  refine ⟨?_, ?_, ?_⟩
  · intro c oid next w2 o o2 hadv hlook hlook2 hmf hmt
    obtain ⟨_, o3, hlook3, hterm, _, hbr⟩ := advance_ok_shape w c oid next w2 hadv
    rw [hlook] at hlook3
    injection hlook3 with hlook3
    subst hlook3
    have hl0 : List.find? (fun q : Order => q.id == oid) w.orders = some o := hlook
    have hkey := List.find?_some hl0
    rcases hbr with ⟨hnextD, _, _, t2, _, hw2⟩ | ⟨hnot, hw2⟩
    · subst hw2
      have hfound := find?_updFirst_same (fun q : Order => q.id == oid)
        (fun q => { q with status := next, reward_minted := true })
        w.orders o hl0 hkey
      simp only [lookupOrder] at hlook2
      rw [hfound] at hlook2
      injection hlook2 with hlook2
      subst hlook2
      refine ⟨hnextD ▸ rfl, fun hD => ?_⟩
      simp [hD] at hterm
    · subst hw2
      have hfound := find?_updFirst_same (fun q : Order => q.id == oid)
        (fun q => { q with status := next }) w.orders o hl0 hkey
      simp only [lookupOrder] at hlook2
      rw [hfound] at hlook2
      injection hlook2 with hlook2
      subst hlook2
      exact absurd hmt (by simpa using hmf)
  · intro cal oid o o2 hlook hmt hlook2
    rw [ordStep] at hlook2
    cases hres : w.advance_status cal.caller cal.order_id cal.next with
    | error e =>
      rw [runCall_error _ _ _ hres, hlook] at hlook2
      injection hlook2 with hlook2
      rw [← hlook2]
      exact hmt
    | ok w2 =>
      rw [runCall_ok _ _ _ hres] at hlook2
      obtain ⟨_, o3, hlook3, _, _, hbr⟩ :=
        advance_ok_shape w cal.caller cal.order_id cal.next w2 hres
      have hl3 : List.find? (fun q : Order => q.id == cal.order_id) w.orders =
        some o3 := hlook3
      have hkey3 := List.find?_some hl3
      by_cases hoid : cal.order_id = oid
      · subst hoid
        rw [hlook] at hlook3
        injection hlook3 with hlook3
        subst hlook3
        rcases hbr with ⟨_, _, _, t2, _, hw2⟩ | ⟨_, hw2⟩
        · subst hw2
          have hfound := find?_updFirst_same
            (fun q : Order => q.id == cal.order_id)
            (fun q => { q with status := cal.next, reward_minted := true })
            w.orders o hl3 hkey3
          simp only [lookupOrder] at hlook2
          rw [hfound] at hlook2
          injection hlook2 with hlook2
          rw [← hlook2]
        · subst hw2
          have hfound := find?_updFirst_same
            (fun q : Order => q.id == cal.order_id)
            (fun q => { q with status := cal.next }) w.orders o hl3 hkey3
          simp only [lookupOrder] at hlook2
          rw [hfound] at hlook2
          injection hlook2 with hlook2
          rw [← hlook2]
          exact hmt
      · have hne : ∀ x : Order, (x.id == cal.order_id) = true →
            (x.id == oid) = false := by
          intro x hx
          simp only [beq_iff_eq] at hx ⊢
          simp [hx, hoid]
        have hlw : List.find? (fun q : Order => q.id == oid) w.orders =
          some o := hlook
        rcases hbr with ⟨_, _, _, t2, _, hw2⟩ | ⟨_, hw2⟩
        · subst hw2
          simp only [lookupOrder] at hlook2
          have hrw1 := find?_updFirst_ne
            (fun q : Order => q.id == cal.order_id)
            (fun q : Order => q.id == oid)
            (fun q : Order => { q with status := cal.next, reward_minted := true })
            w.orders hne (fun x => rfl)
          rw [hrw1, hlw] at hlook2
          injection hlook2 with hlook2
          rw [← hlook2]
          exact hmt
        · subst hw2
          simp only [lookupOrder] at hlook2
          have hrw2 := find?_updFirst_ne
            (fun q : Order => q.id == cal.order_id)
            (fun q : Order => q.id == oid)
            (fun q : Order => { q with status := cal.next })
            w.orders hne (fun x => rfl)
          rw [hrw2, hlw] at hlook2
          injection hlook2 with hlook2
          rw [← hlook2]
          exact hmt
  · intro hrew hinv calls
    exact (foldl_ordStep_inv calls w hrew hinv).1

/-- Witness for C3 on concrete worlds: a delivery call flips the flag
together with the move into Delivered, a minted flag survives a further
call, and the delivered-implies-minted invariant holds after a delivery
sequence. -/
theorem C3_no_double_mint_witness :
    ((⟨1, 9, 1, 10000000, .Delivered, true⟩ : Order).status = .Delivered ∧
      (⟨1, 9, 1, 10000000, .OutForDelivery, false⟩ : Order).status ≠
        .Delivered) ∧
    (⟨1, 9, 1, 10000000, .Delivered, true⟩ : Order).reward_minted = true ∧
    mintedInv (List.foldl ordStep
      ⟨⟨1, true⟩, 50, 2, [⟨1, 9, 1, 10000000, .OutForDelivery, false⟩],
        ⟨1, 50, 0, []⟩⟩
      [⟨1, 1, .Delivered⟩]) := by
  refine ⟨(C3_no_double_mint
      ⟨⟨1, true⟩, 50, 2, [⟨1, 9, 1, 10000000, .OutForDelivery, false⟩],
        ⟨1, 50, 0, []⟩⟩).1
      1 1 .Delivered
      ⟨⟨1, true⟩, 50, 2, [⟨1, 9, 1, 10000000, .Delivered, true⟩],
        ⟨1, 50, 10000000, [(9, 10000000)]⟩⟩
      ⟨1, 9, 1, 10000000, .OutForDelivery, false⟩
      ⟨1, 9, 1, 10000000, .Delivered, true⟩
      (by rfl) (by decide) (by decide) rfl rfl, ?_, ?_⟩
  · exact (C3_no_double_mint
      ⟨⟨1, true⟩, 50, 2, [⟨1, 9, 1, 10000000, .Delivered, true⟩],
        ⟨1, 50, 10000000, [(9, 10000000)]⟩⟩).2.1
      ⟨1, 1, .Confirmed⟩ 1
      ⟨1, 9, 1, 10000000, .Delivered, true⟩
      ⟨1, 9, 1, 10000000, .Delivered, true⟩
      (by decide) rfl (by decide)
  · exact (C3_no_double_mint
      ⟨⟨1, true⟩, 50, 2, [⟨1, 9, 1, 10000000, .OutForDelivery, false⟩],
        ⟨1, 50, 0, []⟩⟩).2.2 rfl
      (by simp [mintedInv]) [⟨1, 1, .Delivered⟩]

/-- C4: a successful release credits the treasury with the fee and the
restaurant with the remainder and flips the record to Released, all in the
same call; a failed release leaves the pre-call state (hence the record
still Escrowed) untouched under the host rollback semantics; and a failing
LoyaltyToken.mint inside the Delivered branch of advance_status fails the
whole advance_status call, whose rollback leaves the order status
unadvanced. -/
theorem C4_release_and_mint_atomic (s : EscrowState) (c : Address) (oid : Nat)
    (rest : Address) (r : EscrowRecord) (w : OrderWorld) (cw : Address)
    (oidw : Nat) (o : Order) (hlookE : lookupEscrow s oid = some r)
    (hlookO : lookupOrder w oidw = some o) :
    (∀ s2, s.release c oid rest = .ok s2 →
      s.contractAddr ≠ s.treasury → s.contractAddr ≠ rest → s.treasury ≠ rest →
      getBal s2.asset s.treasury =
        getBal s.asset s.treasury + feeOf r.amount s.fee_bps ∧
      getBal s2.asset rest =
        getBal s.asset rest + restaurantShare r.amount s.fee_bps ∧
      lookupEscrow s2 oid = some { r with status := .Released }) ∧
    (∀ e, s.release c oid rest = .error e →
      runCall (fun t => t.release c oid rest) s = s) ∧
    (∀ e, cw = w.config.admin →
      ¬(o.status = .Delivered ∨ o.status = .Cancelled) →
      validTransition o.status .Delivered = true →
      w.config.rewards_enabled = true → o.reward_minted = false →
      w.token.mint w.contractAddr o.customer (biteReward o.total_amount) =
        .error e →
      w.advance_status cw oidw .Delivered = .error e ∧
      runCall (fun t => t.advance_status cw oidw .Delivered) w = w) := by
  refine ⟨?_, ?_, ?_⟩
  · intro s2 hrel hct hcr htr
    obtain ⟨_, r2, b1, b2, hlook2, _, h1, h2, hs2⟩ :=
      release_ok_shape s c oid rest s2 hrel
    rw [hlookE] at hlook2
    injection hlook2 with hlook2
    subst hlook2
    obtain ⟨hb1t, _, hb1o⟩ := assetTransfer_ok_bal s.asset s.contractAddr
      s.treasury _ b1 hct h1
    obtain ⟨hb2r, _, hb2o⟩ := assetTransfer_ok_bal b1 s.contractAddr
      rest _ b2 hcr h2
    subst hs2
    refine ⟨?_, ?_, ?_⟩
    · show getBal b2 s.treasury = _
      rw [hb2o s.treasury (Ne.symm hct) htr, hb1t]
    · show getBal b2 rest = _
      rw [hb2r, hb1o rest (Ne.symm hcr) (Ne.symm htr)]
    · have hl0 : List.find? (fun q : EscrowRecord => q.order_id == oid)
        s.escrows = some r := hlookE
      have hkey := List.find?_some hl0
      exact find?_updFirst_same _ _ _ _ hl0 hkey
  · intro e herr
    exact runCall_error _ _ _ herr
  · intro e hc hterm hvalid hrew hmf hmint
    have hadv : w.advance_status cw oidw .Delivered = .error e := by
      simp [OrderWorld.advance_status, hc, hlookO, hterm, hvalid, hrew,
        hmf, hmint]
    exact ⟨hadv, runCall_error _ _ _ hadv⟩

/-- Witness for C4: a concrete release of a 1_000_000-stroop escrow at
250 bps credits the treasury 25_000 and the restaurant 975_000 and flips
the record; a refused release leaves the state unchanged; and an advance
with a failing mint (the token minter is not the order contract) fails
whole and leaves the world unchanged. -/
theorem C4_release_and_mint_atomic_witness :
    (getBal [(3, 0), (2, 25000), (4, 975000)] 2 =
        getBal [(3, 1000000)] 2 + feeOf 1000000 250 ∧
      getBal [(3, 0), (2, 25000), (4, 975000)] 4 =
        getBal [(3, 1000000)] 4 + restaurantShare 1000000 250 ∧
      lookupEscrow ⟨1, 2, 250, 3, [(3, 0), (2, 25000), (4, 975000)],
        [⟨5, 9, 1000000, .Released⟩]⟩ 5 = some ⟨5, 9, 1000000, .Released⟩) ∧
    (runCall (fun t => EscrowState.release t 7 5 4)
      ⟨1, 2, 250, 3, [(3, 1000000)], [⟨5, 9, 1000000, .Escrowed⟩]⟩ =
      ⟨1, 2, 250, 3, [(3, 1000000)], [⟨5, 9, 1000000, .Escrowed⟩]⟩) ∧
    (OrderWorld.advance_status
        ⟨⟨1, true⟩, 50, 2, [⟨1, 9, 1, 10000000, .OutForDelivery, false⟩],
          ⟨1, 60, 0, []⟩⟩ 1 1 .Delivered = .error .Unauthorized ∧
      runCall (fun t => OrderWorld.advance_status t 1 1 .Delivered)
        ⟨⟨1, true⟩, 50, 2, [⟨1, 9, 1, 10000000, .OutForDelivery, false⟩],
          ⟨1, 60, 0, []⟩⟩ =
        ⟨⟨1, true⟩, 50, 2, [⟨1, 9, 1, 10000000, .OutForDelivery, false⟩],
          ⟨1, 60, 0, []⟩⟩) := by
  have h := C4_release_and_mint_atomic
    ⟨1, 2, 250, 3, [(3, 1000000)], [⟨5, 9, 1000000, .Escrowed⟩]⟩ 1 5 4
    ⟨5, 9, 1000000, .Escrowed⟩
    ⟨⟨1, true⟩, 50, 2, [⟨1, 9, 1, 10000000, .OutForDelivery, false⟩],
      ⟨1, 60, 0, []⟩⟩ 1 1 ⟨1, 9, 1, 10000000, .OutForDelivery, false⟩
    (by decide) (by decide)
  refine ⟨h.1 ⟨1, 2, 250, 3, [(3, 0), (2, 25000), (4, 975000)],
      [⟨5, 9, 1000000, .Released⟩]⟩ (by rfl) (by decide) (by decide)
      (by decide), ?_, ?_⟩
  · exact (C4_release_and_mint_atomic
      ⟨1, 2, 250, 3, [(3, 1000000)], [⟨5, 9, 1000000, .Escrowed⟩]⟩ 7 5 4
      ⟨5, 9, 1000000, .Escrowed⟩
      ⟨⟨1, true⟩, 50, 2, [⟨1, 9, 1, 10000000, .OutForDelivery, false⟩],
        ⟨1, 60, 0, []⟩⟩ 1 1 ⟨1, 9, 1, 10000000, .OutForDelivery, false⟩
      (by decide) (by decide)).2.1 .Unauthorized (by rfl)
  · exact h.2.2 .Unauthorized rfl (by decide) (by decide) rfl rfl (by rfl)

/-- A cart line item as held by the frontend cart store
(frontend/app/shared payment.store.ts); priceFiat is carried opaquely. -/
structure CartItem where
  id : String
  name : String
  image : Option String
  priceFiat : Int
  quantity : Int
  customizations : List String
deriving DecidableEq, Repr

/-- addItem of the cart store: if an entry with the same id exists, bump
that entry's quantity by the added quantity (map over the list), else
append the new item. -/
def addItem (items : List CartItem) (item : CartItem) : List CartItem :=
  match items.find? (fun i => i.id == item.id) with
  | some _ => items.map (fun i =>
      if i.id == item.id then { i with quantity := i.quantity + item.quantity }
      else i)
  | none => items ++ [item]

/-- updateQuantity of the cart store: set the quantity of entries with the
given id. -/
def updateQuantity (items : List CartItem) (id : String) (quantity : Int) :
    List CartItem :=
  items.map (fun i => if i.id == id then { i with quantity := quantity } else i)

/-- removeItem of the cart store: drop entries with the given id. -/
def removeItem (items : List CartItem) (id : String) : List CartItem :=
  items.filter (fun i => !(i.id == id))

/-- One cart store call (clearCart resets to the empty list). -/
inductive CartOp where
  | add (item : CartItem)
  | update (id : String) (quantity : Int)
  | remove (id : String)
  | clear
deriving DecidableEq, Repr

def cartStep (items : List CartItem) (op : CartOp) : List CartItem :=
  match op with
  | .add item => addItem items item
  | .update id q => updateQuantity items id q
  | .remove id => removeItem items id
  | .clear => []

def cartIds (items : List CartItem) : List String :=
  items.map (fun i => i.id)

theorem find?_map_pres {α : Type} (p : α → Bool) (f : α → α)
    (hf : ∀ x, p (f x) = p x) (l : List α) :
    (l.map f).find? p = (l.find? p).map f := by
  induction l with
  | nil => rfl
  | cons x rest ih =>
    simp only [List.map_cons, List.find?, hf x]
    cases hpx : p x
    · simpa [hpx] using ih
    · simp [hpx]

theorem cartIds_map (f : CartItem → CartItem) (hf : ∀ i, (f i).id = i.id)
    (items : List CartItem) : cartIds (items.map f) = cartIds items := by
  simp only [cartIds, List.map_map]
  exact List.map_congr_left (fun a _ => hf a)

theorem cartIds_append (l1 l2 : List CartItem) :
    cartIds (l1 ++ l2) = cartIds l1 ++ cartIds l2 := by
  simp [cartIds]

theorem cartStep_nodup (items : List CartItem) (op : CartOp)
    (h : (cartIds items).Nodup) : (cartIds (cartStep items op)).Nodup := by
  cases op with
  | add item =>
    rw [cartStep]
    cases hfind : items.find? (fun i => i.id == item.id) with
    | some e =>
      simp only [addItem, hfind]
      rw [cartIds_map _ (fun i => by
        by_cases h2 : (i.id == item.id) = true <;> simp [h2])]
      exact h
    | none =>
      simp only [addItem, hfind]
      rw [cartIds_append]
      have hnotin : item.id ∉ cartIds items := by
        intro hmem
        obtain ⟨x, hx, hxid⟩ := List.mem_map.mp hmem
        have hnone := List.find?_eq_none.mp hfind x hx
        simp [hxid] at hnone
      refine List.nodup_append.mpr ⟨h, by simp [cartIds], fun a ha hb => ?_⟩
      simp [cartIds] at hb
      exact hnotin (hb ▸ ha)
  | update id q =>
    rw [cartStep, updateQuantity]
    rw [cartIds_map _ (fun i => by
      by_cases h2 : (i.id == id) = true <;> simp [h2])]
    exact h
  | remove id =>
    rw [cartStep, removeItem]
    have hsub : List.Sublist
        ((items.filter (fun i => !(i.id == id))).map (fun i => i.id))
        (items.map (fun i => i.id)) :=
      (List.filter_sublist items).map _
    exact List.Nodup.sublist hsub h
  | clear => simp [cartStep, cartIds]

theorem foldl_cart_nodup (ops : List CartOp) :
    ∀ items : List CartItem, (cartIds items).Nodup →
      (cartIds (List.foldl cartStep items ops)).Nodup := by
  induction ops with
  | nil => intro items h; exact h
  | cons op rest ih =>
    intro items h
    rw [List.foldl_cons]
    exact ih _ (cartStep_nodup items op h)

/-- C9: starting from the empty cart, no sequence of addItem,
updateQuantity, removeItem and clearCart store calls ever produces two
entries with the same id; addItem with an id already present bumps that
entry's quantity by the added quantity without appending (same ids, same
length), and addItem with a fresh id appends exactly that one entry. -/
theorem C9_cart_unique_ids :
    (∀ ops : List CartOp, (cartIds (List.foldl cartStep [] ops)).Nodup) ∧
    (∀ (items : List CartItem) (item e : CartItem),
      items.find? (fun i => i.id == item.id) = some e →
      cartIds (addItem items item) = cartIds items ∧
      (addItem items item).length = items.length ∧
      (addItem items item).find? (fun i => i.id == item.id) =
        some { e with quantity := e.quantity + item.quantity }) ∧
    (∀ (items : List CartItem) (item : CartItem),
      items.find? (fun i => i.id == item.id) = none →
      addItem items item = items ++ [item]) := by
  refine ⟨?_, ?_, ?_⟩
  · intro ops
    exact foldl_cart_nodup ops [] (by simp [cartIds])
  · intro items item e hfind
    have hf : ∀ i : CartItem,
        ((fun i : CartItem => i.id == item.id)
          (if i.id == item.id then
            { i with quantity := i.quantity + item.quantity } else i)) =
        (fun i : CartItem => i.id == item.id) i := by
      intro i
      by_cases h2 : (i.id == item.id) = true <;> simp [h2]
    refine ⟨?_, ?_, ?_⟩
    · simp only [addItem, hfind]
      exact cartIds_map _ (fun i => by
        by_cases h2 : (i.id == item.id) = true <;> simp [h2]) items
    · simp only [addItem, hfind, List.length_map]
    · simp only [addItem, hfind]
      rw [find?_map_pres _ _ hf items, hfind]
      have hkey := List.find?_some hfind
      simp only [Option.map_some']
      rw [if_pos hkey]
  · intro items item hfind
    simp only [addItem, hfind]

/-- Witness for C9 at concrete carts: a duplicate add merges quantities
(1 + 2) keeping one entry, a fresh add appends, and a concrete op sequence
from the empty cart keeps ids unique. -/
theorem C9_cart_unique_ids_witness :
    (cartIds (List.foldl cartStep []
      [.add ⟨"a", "Apple", none, 5, 1, []⟩,
        .add ⟨"a", "Apple", none, 5, 2, []⟩,
        .add ⟨"b", "Bread", none, 3, 1, []⟩,
        .remove "a"])).Nodup ∧
    ((addItem [⟨"a", "Apple", none, 5, 1, []⟩]
        ⟨"a", "Apple", none, 5, 2, []⟩).length =
      [(⟨"a", "Apple", none, 5, 1, []⟩ : CartItem)].length ∧
      (addItem [⟨"a", "Apple", none, 5, 1, []⟩]
        ⟨"a", "Apple", none, 5, 2, []⟩).find?
          (fun i => i.id == "a") = some ⟨"a", "Apple", none, 5, 1 + 2, []⟩) ∧
    addItem [⟨"a", "Apple", none, 5, 1, []⟩] ⟨"b", "Bread", none, 3, 1, []⟩ =
      [⟨"a", "Apple", none, 5, 1, []⟩] ++ [⟨"b", "Bread", none, 3, 1, []⟩] := by
  have h2 := (C9_cart_unique_ids).2.1 [⟨"a", "Apple", none, 5, 1, []⟩]
    ⟨"a", "Apple", none, 5, 2, []⟩ ⟨"a", "Apple", none, 5, 1, []⟩ (by decide)
  exact ⟨(C9_cart_unique_ids).1 _, ⟨h2.2.1, h2.2.2⟩,
    (C9_cart_unique_ids).2.2 [⟨"a", "Apple", none, 5, 1, []⟩]
      ⟨"b", "Bread", none, 3, 1, []⟩ (by decide)⟩

/-- The AdminUser hashPassword hook (admin-user.entity.ts), run before
every insert and update: when passwordHash is non-empty and does not begin
with the two characters of a bcrypt marker, it is replaced by its bcrypt
hash (bcrypt itself is external and passed as a function); otherwise it is
persisted unchanged.  The two-character check embeds the source's
startsWith test against the marker string. -/
def hashPassword (bcryptHash : String → String) (passwordHash : String) :
    String :=
  if passwordHash ≠ "" ∧ passwordHash.data.take 2 ≠ ['$', '2'] then
    bcryptHash passwordHash
  else passwordHash

/-- C10: the hook hashes only a non-empty value that does not begin with
the bcrypt marker characters; a value beginning with those characters, or
an empty value, is persisted unchanged even if it was supplied as
plaintext. -/
theorem C10_hash_password_guard (bcryptHash : String → String) (pw : String) :
    (pw.data.take 2 = ['$', '2'] → hashPassword bcryptHash pw = pw) ∧
    (pw = "" → hashPassword bcryptHash pw = pw) ∧
    (pw ≠ "" → pw.data.take 2 ≠ ['$', '2'] →
      hashPassword bcryptHash pw = bcryptHash pw) := by
  refine ⟨fun h2 => ?_, fun h0 => ?_, fun hne h2 => ?_⟩ <;>
    simp [hashPassword, *]

/-- Witness for C10 at concrete strings: a bcrypt-looking value and the
empty value pass through unchanged, and a plaintext value is hashed. -/
theorem C10_hash_password_guard_witness :
    hashPassword (fun s => String.append "h:" s) "$2b$10$x" = "$2b$10$x" ∧
    hashPassword (fun s => String.append "h:" s) "" = "" ∧
    hashPassword (fun s => String.append "h:" s) "plain" =
      String.append "h:" "plain" := by
  exact ⟨(C10_hash_password_guard (fun s => String.append "h:" s)
      "$2b$10$x").1 (by decide),
    (C10_hash_password_guard (fun s => String.append "h:" s) "").2.1 rfl,
    (C10_hash_password_guard (fun s => String.append "h:" s) "plain").2.2
      (by decide) (by decide)⟩
